import Mathlib

/-!
Verification of the reglet host SDK (Go) against its specification.

Go strings are modelled as lists of characters (`GoStr`); Go `int`/`int64`
as `Int` (or `Nat` where the source value is provably non-negative);
fallible Go functions return `Except`/`Option`.  Each definition is a
shallow embedding of the corresponding Go function, keeping the source's
name where Lean allows it.
-/

set_option maxHeartbeats 1000000

/-- Go strings, modelled as lists of characters. -/
abbrev GoStr := List Char

/-- Auxiliary worker for `strings.Split` with a one-character separator:
`acc` holds the (reversed) characters of the current field. -/
def splitChAux (sep : Char) : GoStr → GoStr → List GoStr
  | [], acc => [acc.reverse]
  | c :: rest, acc =>
    if c = sep then acc.reverse :: splitChAux sep rest []
    else splitChAux sep rest (c :: acc)

/-- Go `strings.Split(s, sep)` for a one-character separator `sep`. -/
def goSplit (s : GoStr) (sep : Char) : List GoStr := splitChAux sep s []

/-- Go `strings.Join` with separator `"/"` (used by the path cleaner). -/
def joinSlash (parts : List GoStr) : GoStr := List.intercalate ['/'] parts

/-- One step of Go `path/filepath.Clean`'s element processing: push a path
component onto the (reversed) output stack, applying the documented rules
for empty components, `"."` and `".."`. -/
def cleanPush (rooted : Bool) (stack : List GoStr) (c : GoStr) : List GoStr :=
  if c = [] ∨ c = ['.'] then stack
  else if c = ['.', '.'] then
    match stack with
    | [] => if rooted then [] else [['.', '.']]
    | top :: rest => if top = ['.', '.'] then c :: top :: rest else rest
  else c :: stack

/-- Go `filepath.Clean` (Unix rules, separator `'/'`): shortest lexical
equivalent of the path. -/
def goClean (s : GoStr) : GoStr :=
  if s = [] then ['.']
  else
    let rooted := s.head? = some '/'
    let stack := ((goSplit s '/').foldl (cleanPush rooted) []).reverse
    if rooted then '/' :: joinSlash stack
    else if stack = [] then ['.'] else joinSlash stack

/-- Go `filepath.IsAbs` (Unix): the path begins with `'/'`. -/
def goIsAbs (s : GoStr) : Bool :=
  match s with
  | '/' :: _ => true
  | _ => false

/-- Go `filepath.Join(a, b)` (Unix): join the non-empty elements with
`'/'` and clean the result; empty if both elements are empty. -/
def goJoin2 (a b : GoStr) : GoStr :=
  if a = [] ∧ b = [] then []
  else if a = [] then goClean b
  else if b = [] then goClean a
  else goClean (a ++ '/' :: b)

/-- Go `strings.Index(s, sub)`: position of the first occurrence of `sub`
in `s`, as `some i`, or `none` when absent (Go returns `-1`). -/
def goIndexSub (s sub : GoStr) : Option Nat :=
  match s with
  | [] => if sub = [] then some 0 else none
  | _ :: rest =>
    if sub.isPrefixOf s then some 0
    else (goIndexSub rest sub).map (· + 1)

/-- Go `strings.LastIndex(s, string(c))` for a one-character needle:
position of the last occurrence of `c`, or `none` (Go returns `-1`). -/
def goLastIndexCh (s : GoStr) (c : Char) : Option Nat :=
  match s with
  | [] => none
  | x :: rest =>
    match goLastIndexCh rest c with
    | some i => some (i + 1)
    | none => if x = c then some 0 else none

/-- Go `fmt` rendering of a `[]string` value (`[a b c]`), used in the
capability descriptions. -/
def goFmtList (l : List GoStr) : GoStr := '[' :: List.intercalate [' '] l ++ [']']

/-! ## Plugin references (`plugin/values/plugin_reference.go`) -/

/-- `values.PluginReference`: unique identifier of a plugin version,
either embedded (bare name) or `registry/org/repo/name:version`. -/
structure PluginReference where
  registry : GoStr
  org : GoStr
  repo : GoStr
  name : GoStr
  version : GoStr
deriving DecidableEq, Repr

/-- `PluginReference.IsEmbedded`: true for built-in plugins. -/
def PluginReference.isEmbedded (r : PluginReference) : Bool := r.registry = []

/-- `PluginReference.String`: canonical OCI reference string. -/
def refString (r : PluginReference) : GoStr :=
  if r.isEmbedded then r.name
  else r.registry ++ '/' :: r.org ++ '/' :: r.repo ++ '/' :: r.name ++ ':' :: r.version

/-- `PluginReference.Equals`: componentwise equality. -/
def refEquals (r other : PluginReference) : Bool :=
  r.registry = other.registry ∧ r.org = other.org ∧ r.repo = other.repo ∧
    r.name = other.name ∧ r.version = other.version

/-- `values.ParsePluginReference`: parse an OCI reference string; a bare
name with no `/` and no `:` is embedded, otherwise at least four
slash-segments and a final `name:version` are required. -/
def parsePluginReference (ref : GoStr) : Except GoStr PluginReference :=
  if ¬ ref.contains '/' ∧ ¬ ref.contains ':' then
    .ok { registry := [], org := [], repo := [], name := ref, version := [] }
  else
    let parts := goSplit ref '/'
    if parts.length < 4 then .error ("invalid OCI reference: ".toList ++ ref)
    else
      let nameVersion := goSplit (parts.getLastD []) ':'
      if nameVersion.length = 2 then
        .ok { registry := parts.getD 0 [], org := parts.getD 1 [],
              repo := parts.getD 2 [], name := nameVersion.getD 0 [],
              version := nameVersion.getD 1 [] }
      else .error ("missing version tag: ".toList ++ ref)

/-! ## Filesystem plugin repository (`plugin/repository/fs_repository.go`) -/

/-- `FSPluginRepository.pluginPath`: compute the cache path for a
reference string, rejecting absolute references and any cleaned path that
escapes the repository root (path-traversal defense).  The function is a
pure lexical computation: no filesystem operation occurs in it. -/
def pluginPath (root refStr : GoStr) : Except GoStr GoStr :=
  if goIsAbs refStr then
    .error ("security violation: absolute paths not allowed in plugin reference ".toList ++ refStr)
  else
    let fullPath := goJoin2 root refStr
    let cleanRoot := goClean root
    let cleanPath := goClean fullPath
    if List.isPrefixOf (cleanRoot ++ ['/']) cleanPath = false ∧ cleanPath ≠ cleanRoot then
      .error ("security violation: path traversal detected for plugin reference ".toList ++ refStr)
    else .ok cleanPath

/-! ## Digests, plugins and integrity (`values`, `entities`, `services`) -/

/-- `values.Digest`: a content hash with algorithm (`sha256`/`sha512`)
and hex value.  The zero value (both fields empty) is the "empty" digest
produced e.g. by `PluginSpecDTO.ToDigest` on an absent digest string. -/
structure Digest where
  algorithm : GoStr
  value : GoStr
deriving DecidableEq, Repr

/-- `Digest.Equals`: componentwise equality of algorithm and value. -/
def digestEquals (d other : Digest) : Bool :=
  d.algorithm = other.algorithm ∧ d.value = other.value

/-- `values.PluginMetadata`: descriptive plugin information. -/
structure PluginMetadata where
  name : GoStr
  version : GoStr
  description : GoStr
  capabilities : List GoStr
deriving DecidableEq, Repr

/-- `entities.Plugin`: aggregate of reference, digest and metadata. -/
structure Plugin where
  reference : PluginReference
  digest : Digest
  metadata : PluginMetadata
deriving DecidableEq, Repr

/-- `entities.IntegrityError`: digest mismatch carrying both digests. -/
structure IntegrityError where
  expected : Digest
  actual : Digest
deriving DecidableEq, Repr

/-- `Plugin.VerifyIntegrity`: returns an `IntegrityError` carrying the
expected and actual digests whenever the plugin's digest differs from
`expected` (no special case for an empty expected digest). -/
def verifyIntegrity (p : Plugin) (expected : Digest) : Option IntegrityError :=
  if digestEquals p.digest expected then none
  else some { expected := expected, actual := p.digest }

/-- `IntegrityService.VerifyDigest`: delegates to `Plugin.VerifyIntegrity`. -/
def verifyDigest (p : Plugin) (expected : Digest) : Option IntegrityError :=
  verifyIntegrity p expected

/-! ## Retry transport (`netutil/retry.go`) -/

/-- Result of one underlying `RoundTrip` call: a transport error (with its
SSRF-blocked classification) or a response with a status code. -/
inductive Outcome where
  | err (isSSRF : Bool)
  | resp (status : Int)
deriving DecidableEq, Repr

/-- What `RetryTransport.RoundTrip` returns: a response, an error, or
nothing at all (response and error both nil). -/
inductive RTOut where
  | resp (status : Int)
  | err (isSSRF : Bool)
  | nothing
deriving DecidableEq, Repr

/-- `netutil.isRetryableStatus`: 429, 502, 503 and 504 are transient. -/
def isRetryableStatus (statusCode : Int) : Bool :=
  if statusCode = 429 ∨ statusCode = 502 ∨ statusCode = 503 ∨ statusCode = 504 then true
  else false

/-- The retry loop of `RetryTransport.RoundTrip`.  `base attempt` is the
outcome of the underlying transport on the given (0-based) attempt;
`remaining` is the number of loop iterations left (`attempt < maxRetries`
in the source corresponds to `remaining > 1` here).  Returns the overall
result together with the number of underlying calls made.  Backoff
computation and sleeping affect timing only and are not modelled. -/
def rtRun (base : Nat → Outcome) : Nat → Nat → RTOut × Nat
  | _, 0 => (.nothing, 0)
  | attempt, r + 1 =>
    match base attempt with
    | .err ssrf =>
      if ssrf then (.err true, 1)
      else if r > 0 then
        ((rtRun base (attempt + 1) r).1, (rtRun base (attempt + 1) r).2 + 1)
      else (.err false, 1)
    | .resp s =>
      if isRetryableStatus s = false then (.resp s, 1)
      else if 400 ≤ s ∧ s < 500 ∧ s ≠ 429 then (.resp s, 1)
      else if r > 0 then
        ((rtRun base (attempt + 1) r).1, (rtRun base (attempt + 1) r).2 + 1)
      else (.resp s, 1)

/-- `RetryTransport.RoundTrip`: run the retry loop with the configured
`MaxRetries` (defaulted to 3 when the field is zero, as in the source). -/
def roundTrip (base : Nat → Outcome) (maxRetries : Nat) : RTOut × Nat :=
  rtRun base 0 ((if maxRetries = 0 then 3 else maxRetries) + 1)

/-- An outcome on which the loop is willing to retry: a non-SSRF transport
error, or a response with a retryable status code. -/
def retryableOutcome : Outcome → Bool
  | .err ssrf => ! ssrf
  | .resp s => isRetryableStatus s

/-! ## Limited reader and HTTP body reading (`netutil/limitreader.go`, `http.go`) -/

/-- Error returned by a read, as observed by `io.ReadAll`: end of stream,
or a `netutil.SizeLimitExceededError` carrying the limit and count. -/
inductive RErr where
  | eof
  | sizeLimit (limit read : Int)
deriving DecidableEq, Repr

/-- `errors.As`-style test used by `netutil.IsSizeLimitExceededError`. -/
def isSizeLimitErr : RErr → Bool
  | .sizeLimit _ _ => true
  | _ => false

/-- State of a `netutil.LimitedReader` wrapped around an in-memory byte
stream (the underlying reader behaves like `bytes.Reader`: it returns
up to the requested count and reports end of stream as `(0, EOF)`). -/
structure LRState where
  n : Int
  limit : Int
  read : Int
  stream : List Nat
deriving DecidableEq, Repr

/-- `netutil.NewLimitedReader` over an in-memory stream. -/
def newLimitedReader (stream : List Nat) (limit : Int) : LRState :=
  { n := limit, limit := limit, read := 0, stream := stream }

/-- `LimitedReader.Read` with a buffer of size `psize`: enforce the byte
budget, forward to the underlying stream, and when the budget is hit
exactly, peek one extra byte to detect truncation. -/
def lrRead (s : LRState) (psize : Nat) : (List Nat × Option RErr) × LRState :=
  if s.n ≤ 0 then (([], some (.sizeLimit s.limit s.read)), s)
  else if s.stream.isEmpty then (([], some .eof), s)
  else
    let cap := min psize s.n.toNat
    let k := min cap s.stream.length
    let bytes := s.stream.take k
    let s' : LRState :=
      { s with n := s.n - k, read := s.read + k, stream := s.stream.drop k }
    if s'.n = 0 then
      if s'.stream.isEmpty then ((bytes, none), s')
      else ((bytes, some (.sizeLimit s.limit (s.read + k + 1))),
            { s' with stream := s'.stream.drop 1 })
    else ((bytes, none), s')

/-- `io.ReadAll` over a `LimitedReader`: repeatedly read (buffer size 512)
until an error; end of stream is success.  `fuel` bounds the iteration
count; it is a modelling artifact and `stream.length + 1` always
suffices. -/
def readAll : Nat → LRState → List Nat → Option (List Nat × Option RErr)
  | 0, _, _ => none
  | f + 1, s, acc =>
    match lrRead s 512 with
    | ((bytes, some .eof), _) => some (acc ++ bytes, none)
    | ((bytes, some e), _) => some (acc ++ bytes, some e)
    | ((bytes, none), s') => readAll f s' (acc ++ bytes)

/-- The relevant fields of a `hostlib.HTTPResponse`. -/
structure HTTPResponseM where
  statusCode : Int
  body : List Nat
  bodyTruncated : Bool
  error : Option GoStr
deriving DecidableEq, Repr

/-- `hostlib.readHTTPResponse`: read the response body through a
`LimitedReader` with budget `maxBodySize`; a size-limit error becomes
`bodyTruncated = true` with no error record, any other read error becomes
a `READ_BODY_FAILED` error record. -/
def readHTTPResponse (status : Int) (stream : List Nat) (maxBodySize : Int) :
    Option HTTPResponseM :=
  match readAll (stream.length + 1) (newLimitedReader stream maxBodySize) [] with
  | none => none
  | some (data, some e) =>
    if isSizeLimitErr e then
      some { statusCode := status, body := data, bodyTruncated := true, error := none }
    else
      some { statusCode := status, body := [], bodyTruncated := false,
             error := some "READ_BODY_FAILED".toList }
  | some (data, none) =>
    some { statusCode := status, body := data, bodyTruncated := false, error := none }

/-! ## Capability middleware (host-function dispatch) -/

/-- What the middleware does with a call: invoke the inner handler
(`checked` records whether a capability check was performed first), or
return a validation-error payload without invoking it. -/
inductive MWAction where
  | callNext (checked : Bool)
  | validationErr (msg : GoStr)
deriving DecidableEq, Repr

/-- The host functions guarded by the capability switch. -/
def guardedFuncs : List GoStr :=
  ["dns_lookup".toList, "tcp_connect".toList, "smtp_connect".toList,
   "http_request".toList, "exec_command".toList]

/-- `hostlib.CapabilityMiddleware` (control flow): `pluginName` is the
plugin name carried by the context (if any); `parses` abstracts whether
the payload unmarshals as the request type expected for `funcName`;
`checkResult` abstracts the capability check's verdict (`none` = allowed,
`some msg` = denial message — for `http_request` this includes a URL
parse failure, for `exec_command` the dangerous-execution message). -/
def capabilityMiddleware (pluginName : Option GoStr) (funcName : GoStr)
    (parses : Bool) (checkResult : Option GoStr) : MWAction :=
  match pluginName with
  | none => .callNext false
  | some _ =>
    if funcName ∈ guardedFuncs then
      if parses then
        match checkResult with
        | some msg => .validationErr msg
        | none => .callNext true
      else .callNext false
    else .callNext false

/-! ## Grant model (`hostfunc` types as used by this repository)

The capability value types live in the `reglet-abi` module; their shapes
are fixed by this repository's uses and by the spec's data model.  The
set-algebra operations (`IsEmpty`, `Clone`, `Merge`) are modelled from
the spec; the Policy-aware `Difference` and `Deduplicate` are taken as
opaque parameters where they occur. -/

/-- `hostfunc.NetworkRule`: host patterns and port patterns. -/
structure NetworkRule where
  hosts : List GoStr
  ports : List GoStr
deriving DecidableEq, Repr

/-- `hostfunc.NetworkCapability`: a list of network rules. -/
structure NetworkCapability where
  rules : List NetworkRule
deriving DecidableEq, Repr

/-- `hostfunc.FileSystemRule`: read and write path patterns. -/
structure FileSystemRule where
  read : List GoStr
  write : List GoStr
deriving DecidableEq, Repr

/-- `hostfunc.FileSystemCapability`: a list of filesystem rules. -/
structure FileSystemCapability where
  rules : List FileSystemRule
deriving DecidableEq, Repr

/-- `hostfunc.EnvironmentCapability`: environment variable patterns
(the Go field `Variables`; Lean reserves that word). -/
structure EnvironmentCapability where
  vars : List GoStr
deriving DecidableEq, Repr

/-- `hostfunc.ExecCapability`: command patterns. -/
structure ExecCapability where
  commands : List GoStr
deriving DecidableEq, Repr

/-- `hostfunc.GrantSet`: a record of optional sub-capabilities (the four
classes used by this repository's gatekeeper and risk analyzer). -/
structure GrantSet where
  network : Option NetworkCapability
  fs : Option FileSystemCapability
  env : Option EnvironmentCapability
  exec : Option ExecCapability
deriving DecidableEq, Repr

/-- The fresh empty grant set `&hostfunc.GrantSet{}`. -/
def emptyGrantSet : GrantSet :=
  { network := none, fs := none, env := none, exec := none }

/-- Modelled from the spec: `GrantSet.IsEmpty` — "no class present or all
classes empty" (the implementation lives in the external `reglet-abi`
module). -/
def grantSetIsEmpty (g : GrantSet) : Bool :=
  (match g.network with | none => true | some nc => nc.rules.isEmpty) &&
  (match g.fs with | none => true | some fc => fc.rules.isEmpty) &&
  (match g.env with | none => true | some ec => ec.vars.isEmpty) &&
  (match g.exec with | none => true | some xc => xc.commands.isEmpty)

/-- Modelled from the spec: `GrantSet.Clone` — a deep copy, which in a
pure model is the value itself (implementation in `reglet-abi`). -/
def grantSetClone (g : GrantSet) : GrantSet := g

/-- Modelled from the spec: `GrantSet.Merge` — union of rules per class
(implementation in `reglet-abi`). -/
def grantSetMerge (a b : GrantSet) : GrantSet :=
  { network :=
      match a.network, b.network with
      | none, x => x
      | some x, none => some x
      | some x, some y => some { rules := x.rules ++ y.rules },
    fs :=
      match a.fs, b.fs with
      | none, x => x
      | some x, none => some x
      | some x, some y => some { rules := x.rules ++ y.rules },
    env :=
      match a.env, b.env with
      | none, x => x
      | some x, none => some x
      | some x, some y => some { vars := x.vars ++ y.vars },
    exec :=
      match a.exec, b.exec with
      | none, x => x
      | some x, none => some x
      | some x, some y => some { commands := x.commands ++ y.commands } }

/-! ## Risk analyzer (`capability/risk.go`) -/

/-- `capability.RiskLevel` (`int` constants `RiskNone .. RiskCritical`). -/
abbrev RiskLevel := Nat

/-- `capability.RiskNone`. -/
def RiskNone : RiskLevel := 0

/-- `capability.RiskLow`. -/
def RiskLow : RiskLevel := 1

/-- `capability.RiskMedium`. -/
def RiskMedium : RiskLevel := 2

/-- `capability.RiskHigh`. -/
def RiskHigh : RiskLevel := 3

/-- `capability.RiskCritical`. -/
def RiskCritical : RiskLevel := 4

/-- `capability.RiskFactor`: one risk element.  The `Rule` string (a
`fmt.Sprintf` rendering of the rule) plays no role in classification and
is omitted. -/
structure RiskFactor where
  description : GoStr
  level : RiskLevel
deriving DecidableEq, Repr

/-- `capability.RiskReport`: factors plus the overall level. -/
structure RiskReport where
  riskFactors : List RiskFactor
  level : RiskLevel
deriving DecidableEq, Repr

/-- The `addFactor` closure in `capability.AnalyzeRisk`: append a factor
when its level is above `RiskNone` and raise the overall level. -/
def addFactor (report : RiskReport) (level : RiskLevel) (desc : GoStr) : RiskReport :=
  if level > RiskNone then
    { riskFactors := report.riskFactors ++ [{ description := desc, level := level }],
      level := if level > report.level then level else report.level }
  else report

/-- The wildcard-host test inside `AnalyzeRisk`'s network loop. -/
def isWildcardHost (rule : NetworkRule) : Bool :=
  rule.hosts.any (fun h => h = "*".toList ∨ h = "0.0.0.0".toList)

/-- `capability.AnalyzeRisk`: classify each rule of a (possibly nil)
`GrantSet` and compute the overall risk level. -/
def analyzeRisk (grants : Option GrantSet) : RiskReport :=
  match grants with
  | none => { riskFactors := [], level := RiskNone }
  | some g =>
    let r0 : RiskReport := { riskFactors := [], level := RiskNone }
    let r1 :=
      match g.network with
      | none => r0
      | some nc =>
        nc.rules.foldl
          (fun rep rule =>
            if isWildcardHost rule then
              addFactor rep RiskCritical "Unrestricted network access".toList
            else addFactor rep RiskMedium "Outbound network access".toList) r0
    let r2 :=
      match g.fs with
      | none => r1
      | some fc =>
        fc.rules.foldl
          (fun rep rule =>
            let rep :=
              if rule.write.length > 0 then
                addFactor rep RiskHigh "Filesystem write access".toList
              else rep
            if rule.read.length > 0 then
              addFactor rep RiskMedium "Filesystem read access".toList
            else rep) r1
    let r3 :=
      match g.exec with
      | none => r2
      | some xc =>
        if xc.commands.length > 0 then
          addFactor r2 RiskCritical "Arbitrary command execution".toList
        else r2
    match g.env with
    | none => r3
    | some ec =>
      if ec.vars.length > 0 then
        addFactor r3 RiskLow "Environment variable access".toList
      else r3

/-- Stated from the spec's words, for comparison with `analyzeRisk`: the
expected risk level of each rule, in the order the analyzer scans them
(network rules; per filesystem rule a write factor then a read factor;
exec; env). -/
def specFactorLevels (grants : Option GrantSet) : List RiskLevel :=
  match grants with
  | none => []
  | some g =>
    (match g.network with
     | none => []
     | some nc =>
       nc.rules.map (fun r => if isWildcardHost r then RiskCritical else RiskMedium)) ++
    (match g.fs with
     | none => []
     | some fc =>
       fc.rules.foldr
         (fun r acc =>
           (if r.write.length > 0 then [RiskHigh] else []) ++
             (if r.read.length > 0 then [RiskMedium] else []) ++ acc) []) ++
    (match g.exec with
     | none => []
     | some xc => if xc.commands.length > 0 then [RiskCritical] else []) ++
    (match g.env with
     | none => []
     | some ec => if ec.vars.length > 0 then [RiskLow] else [])

/-! ## Gatekeeper (`capability/gatekeeper/gatekeeper.go`) -/

/-- `gatekeeper.SecurityLevel`. -/
inductive SecurityLevel where
  | strict
  | standard
  | permissive
deriving DecidableEq, Repr

/-- `capability.Request`: the typed query presented to the prompter.  The
untyped `Rule` field (display only) is omitted. -/
structure Request where
  kind : GoStr
  description : GoStr
  isBroad : Bool
deriving DecidableEq, Repr

/-- A prompter (`capability.Prompter.PromptForCapability`): maps a request
to `(granted, always)` or an error. -/
abbrev Prompter := Request → Except GoStr (Bool × Bool)

/-- `Gatekeeper.evaluateWithSecurityLevel`: apply the security-level
policy and fall back to the prompter.  Returns the Go result (granted,
always, error) together with whether the prompter was invoked.  The
`riskFactors` argument of the source only feeds logging and is omitted. -/
def evaluateWithSecurityLevel (level : SecurityLevel) (prompter : Prompter)
    (req : Request) : Except GoStr (Bool × Bool) × Bool :=
  if req.isBroad then
    match level with
    | .strict =>
      (.error ("broad capability denied by strict security policy: ".toList ++
        req.description), false)
    | .permissive => (.ok (true, false), false)
    | .standard =>
      if SecurityLevel.standard = SecurityLevel.permissive then (.ok (true, false), false)
      else (prompter req, true)
  else if level = .permissive then (.ok (true, false), false)
  else (prompter req, true)

/-- The `capability.Request` built in `promptForNetwork` for one rule. -/
def networkRuleRequest (rule : NetworkRule) : Request :=
  { kind := "network".toList,
    description := "network ".toList ++ goFmtList rule.hosts ++ ':' :: goFmtList rule.ports,
    isBroad := rule.hosts = ["*".toList] ∧ rule.ports = ["*".toList] }

/-- The `capability.Request` built in `promptForFS` for one read path. -/
def fsReadRequest (path : GoStr) : Request :=
  { kind := "fs".toList,
    description := "fs read:".toList ++ path,
    isBroad := path = "/**".toList ∨ path = "**".toList }

/-- The `capability.Request` built in `promptForFS` for one write path. -/
def fsWriteRequest (path : GoStr) : Request :=
  { kind := "fs".toList,
    description := "fs write:".toList ++ path,
    isBroad := path = "/**".toList ∨ path = "**".toList }

/-- The `capability.Request` built in `promptForEnv` for one variable. -/
def envRequest (v : GoStr) : Request :=
  { kind := "env".toList,
    description := "env ".toList ++ v,
    isBroad := v = "*".toList }

/-- The `capability.Request` built in `promptForExec` for one command. -/
def execRequest (cmd : GoStr) : Request :=
  { kind := "exec".toList,
    description := "exec ".toList ++ cmd,
    isBroad := cmd = "**".toList ∨ cmd = "*".toList }

/-- Observable side effects of `Gatekeeper.GrantCapabilities`: loading or
saving the grant store, and consulting the prompter. -/
inductive GKEvent where
  | loadGrants
  | saveGrants
  | promptUser (req : Request)
deriving DecidableEq, Repr

/-- The loop body of `Gatekeeper.promptForNetwork`: evaluate each missing
network rule under the security level, merging granted rules into
`g` and accumulating the save flag `s` and the prompter events. -/
def promptNetworkLoop (level : SecurityLevel) (prompter : Prompter) :
    List NetworkRule → GrantSet → Bool → Except GoStr (GrantSet × Bool) × List GKEvent
  | [], g, s => (.ok (g, s), [])
  | rule :: rest, g, s =>
    let req := networkRuleRequest rule
    let (res, prompted) := evaluateWithSecurityLevel level prompter req
    let ev : List GKEvent := if prompted then [.promptUser req] else []
    match res with
    | .error e => (.error e, ev)
    | .ok (granted, always) =>
      if granted then
        let g' := grantSetMerge g
          { network := some { rules := [rule] }, fs := none, env := none, exec := none }
        let (r, evs) := promptNetworkLoop level prompter rest g' (s || always)
        (r, ev ++ evs)
      else
        (.error ("capability denied by user: network ".toList ++
          goFmtList rule.hosts ++ ':' :: goFmtList rule.ports), ev)

/-- The inner path loops of `Gatekeeper.promptForFS` (read paths when
`isWrite = false`, write paths when `isWrite = true`). -/
def promptFSPathLoop (level : SecurityLevel) (prompter : Prompter) (isWrite : Bool) :
    List GoStr → GrantSet → Bool → Except GoStr (GrantSet × Bool) × List GKEvent
  | [], g, s => (.ok (g, s), [])
  | path :: rest, g, s =>
    let req := if isWrite then fsWriteRequest path else fsReadRequest path
    let (res, prompted) := evaluateWithSecurityLevel level prompter req
    let ev : List GKEvent := if prompted then [.promptUser req] else []
    match res with
    | .error e => (.error e, ev)
    | .ok (granted, always) =>
      if granted then
        let rule : FileSystemRule :=
          if isWrite then { read := [], write := [path] } else { read := [path], write := [] }
        let g' := grantSetMerge g
          { network := none, fs := some { rules := [rule] }, env := none, exec := none }
        let (r, evs) := promptFSPathLoop level prompter isWrite rest g' (s || always)
        (r, ev ++ evs)
      else
        (.error ((if isWrite then "capability denied by user: fs write:".toList
                  else "capability denied by user: fs read:".toList) ++ path), ev)

/-- The rule loop of `Gatekeeper.promptForFS`: per rule, the read paths
then the write paths. -/
def promptFSRuleLoop (level : SecurityLevel) (prompter : Prompter) :
    List FileSystemRule → GrantSet → Bool → Except GoStr (GrantSet × Bool) × List GKEvent
  | [], g, s => (.ok (g, s), [])
  | rule :: rest, g, s =>
    match promptFSPathLoop level prompter false rule.read g s with
    | (.error e, ev) => (.error e, ev)
    | (.ok (g1, s1), ev1) =>
      match promptFSPathLoop level prompter true rule.write g1 s1 with
      | (.error e, ev) => (.error e, ev1 ++ ev)
      | (.ok (g2, s2), ev2) =>
        let (r, evs) := promptFSRuleLoop level prompter rest g2 s2
        (r, ev1 ++ ev2 ++ evs)

/-- The loop body of `Gatekeeper.promptForEnv`. -/
def promptEnvLoop (level : SecurityLevel) (prompter : Prompter) :
    List GoStr → GrantSet → Bool → Except GoStr (GrantSet × Bool) × List GKEvent
  | [], g, s => (.ok (g, s), [])
  | v :: rest, g, s =>
    let req := envRequest v
    let (res, prompted) := evaluateWithSecurityLevel level prompter req
    let ev : List GKEvent := if prompted then [.promptUser req] else []
    match res with
    | .error e => (.error e, ev)
    | .ok (granted, always) =>
      if granted then
        let g' := grantSetMerge g
          { network := none, fs := none, env := some { vars := [v] }, exec := none }
        let (r, evs) := promptEnvLoop level prompter rest g' (s || always)
        (r, ev ++ evs)
      else (.error ("capability denied by user: env ".toList ++ v), ev)

/-- The loop body of `Gatekeeper.promptForExec`. -/
def promptExecLoop (level : SecurityLevel) (prompter : Prompter) :
    List GoStr → GrantSet → Bool → Except GoStr (GrantSet × Bool) × List GKEvent
  | [], g, s => (.ok (g, s), [])
  | cmd :: rest, g, s =>
    let req := execRequest cmd
    let (res, prompted) := evaluateWithSecurityLevel level prompter req
    let ev : List GKEvent := if prompted then [.promptUser req] else []
    match res with
    | .error e => (.error e, ev)
    | .ok (granted, always) =>
      if granted then
        let g' := grantSetMerge g
          { network := none, fs := none, env := none, exec := some { commands := [cmd] } }
        let (r, evs) := promptExecLoop level prompter rest g' (s || always)
        (r, ev ++ evs)
      else (.error ("capability denied by user: exec ".toList ++ cmd), ev)

/-- `Gatekeeper.promptForCapabilities`: network, then fs, then env, then
exec, aborting on the first error. -/
def promptForCapabilities (level : SecurityLevel) (prompter : Prompter)
    (missing : GrantSet) (newGrants : GrantSet) (shouldSave : Bool) :
    Except GoStr (GrantSet × Bool) × List GKEvent :=
  let netRules := match missing.network with | none => [] | some nc => nc.rules
  match promptNetworkLoop level prompter netRules newGrants shouldSave with
  | (.error e, ev) => (.error e, ev)
  | (.ok (g1, s1), ev1) =>
    let fsRules := match missing.fs with | none => [] | some fc => fc.rules
    match promptFSRuleLoop level prompter fsRules g1 s1 with
    | (.error e, ev) => (.error e, ev1 ++ ev)
    | (.ok (g2, s2), ev2) =>
      let envVars := match missing.env with | none => [] | some ec => ec.vars
      match promptEnvLoop level prompter envVars g2 s2 with
      | (.error e, ev) => (.error e, ev1 ++ ev2 ++ ev)
      | (.ok (g3, s3), ev3) =>
        let cmds := match missing.exec with | none => [] | some xc => xc.commands
        match promptExecLoop level prompter cmds g3 s3 with
        | (.error e, ev) => (.error e, ev1 ++ ev2 ++ ev3 ++ ev)
        | (.ok (g4, s4), ev4) => (.ok (g4, s4), ev1 ++ ev2 ++ ev3 ++ ev4)

/-- `Gatekeeper.GrantCapabilities`: decide which capabilities to grant.
`storeLoadRes` is the grant store's `Load` result; `interactive` is the
prompter's `IsInteractive`; the Policy-aware `Difference` and
`Deduplicate` of the external grant model are passed as `diff` and
`dedup`.  The returned event list records every store access and prompter
consultation, in order. -/
def grantCapabilities (level : SecurityLevel) (storeLoadRes : Except Unit GrantSet)
    (interactive : Bool) (prompter : Prompter)
    (diff : GrantSet → GrantSet → GrantSet) (dedup : GrantSet → GrantSet)
    (required : Option GrantSet) (trustAll : Bool) :
    Except GoStr GrantSet × List GKEvent :=
  match required with
  | none => (.ok emptyGrantSet, [])
  | some req =>
    if grantSetIsEmpty req then (.ok emptyGrantSet, [])
    else if trustAll then (.ok (grantSetClone req), [])
    else
      let existing := match storeLoadRes with | .ok g => g | .error _ => emptyGrantSet
      let missing := diff req existing
      if grantSetIsEmpty missing then (.ok existing, [.loadGrants])
      else
        let missing := dedup missing
        if interactive = false then
          (.error "interactive prompt required for missing capabilities".toList, [.loadGrants])
        else
          match promptForCapabilities level prompter missing (grantSetClone existing) false with
          | (.error e, ev) => (.error e, .loadGrants :: ev)
          | (.ok (newGrants, shouldSave), ev) =>
            if shouldSave then (.ok newGrants, .loadGrants :: ev ++ [.saveGrants])
            else (.ok newGrants, .loadGrants :: ev)

/-! ## Plugin declarations and the lockfile service
(`plugin/entities/plugin_spec.go`, `plugin/entities/lockfile.go`,
the `LockfileService`) -/

/-- `entities.PluginSpec`: a plugin declaration with optional version,
source and digest pin. -/
structure PluginSpec where
  name : GoStr
  source : GoStr
  version : GoStr
  digest : GoStr
  verify : Bool
deriving DecidableEq, Repr

/-- `entities.ParsePluginDeclaration`: parse a declaration string such as
`file`, `file@1.2.0`, `ghcr.io/.../file:1.2.0` or
`ghcr.io/.../file@sha256:abc`. -/
def parsePluginDeclaration (declaration : GoStr) : Except GoStr PluginSpec :=
  if declaration = [] then .error "empty plugin declaration".toList
  else
    let s0 : PluginSpec :=
      { name := [], source := declaration, version := [], digest := [], verify := false }
    let step1 : GoStr × PluginSpec :=
      match goIndexSub declaration "@sha256:".toList with
      | some idx =>
        let digest := declaration.drop (idx + 1)
        let decl := declaration.take idx
        (decl, { s0 with digest := digest, source := decl ++ '@' :: digest })
      | none => (declaration, s0)
    let step2 : GoStr × PluginSpec :=
      match goLastIndexCh step1.1 '@' with
      | some idx => (step1.1.take idx, { step1.2 with version := step1.1.drop (idx + 1) })
      | none => step1
    let decl2 := step2.1
    let s2 := step2.2
    if decl2.contains '/' then
      let parts := goSplit decl2 '/'
      let nm := parts.getLastD []
      match goLastIndexCh nm ':' with
      | some idx => .ok { s2 with version := nm.drop (idx + 1), name := nm.take idx }
      | none => .ok { s2 with name := nm }
    else
      if s2.version ≠ [] then .ok { s2 with name := decl2, source := decl2 }
      else .ok { s2 with name := decl2 }

/-- `entities.PluginLock`: a pinned plugin version.  Times are opaque
instants, modelled as natural numbers. -/
structure PluginLock where
  fetched : Nat
  modified : Nat
  requested : GoStr
  resolved : GoStr
  source : GoStr
  digest : GoStr
deriving DecidableEq, Repr

/-- `entities.Lockfile` (the plugin side; profiles are untouched by
`ResolvePlugins` and omitted).  The Go `map[string]PluginLock` is
modelled as a lookup function. -/
structure Lockfile where
  generated : Nat
  version : Nat
  plugins : GoStr → Option PluginLock

/-- `entities.NewLockfile` at instant `now` (`time.Now`). -/
def newLockfile (now : Nat) : Lockfile :=
  { generated := now, version := 1, plugins := fun _ => none }

/-- `Lockfile.GetPlugin`. -/
def Lockfile.getPlugin (l : Lockfile) (name : GoStr) : Option PluginLock :=
  l.plugins name

/-- `Lockfile.AddPlugin`: reject an empty digest, otherwise insert or
replace the entry. -/
def Lockfile.addPlugin (l : Lockfile) (name : GoStr) (lock : PluginLock) :
    Except GoStr Lockfile :=
  if lock.digest = [] then .error ("digest is required for plugin ".toList ++ name)
  else .ok { l with plugins := fun k => if k = name then some lock else l.plugins k }

/-- The constraint derived from a parsed declaration in
`LockfileService.ResolvePlugins` (`latest` when no version given). -/
def constraintOf (spec : PluginSpec) : GoStr :=
  if spec.version = [] then "latest".toList else spec.version

/-- The declaration loop of `LockfileService.ResolvePlugins`: for each
declaration, keep a locked entry whose `requested` matches the
constraint, otherwise record a new entry (the service resolves the
constraint to itself and uses a placeholder digest) and mark the lockfile
dirty. -/
def resolveLoop (now : Nat) : List GoStr → Lockfile → Bool → Except GoStr (Lockfile × Bool)
  | [], lock, updated => .ok (lock, updated)
  | d :: rest, lock, updated =>
    match parsePluginDeclaration d with
    | .error e => .error ("parsing plugin declaration: ".toList ++ e)
    | .ok spec =>
      let constraint := constraintOf spec
      let keep : Bool :=
        match lock.getPlugin spec.name with
        | some locked => locked.requested = constraint
        | none => false
      if keep then resolveLoop now rest lock updated
      else
        let newLock : PluginLock :=
          { fetched := now, modified := 0, requested := constraint,
            resolved := constraint, source := spec.source,
            digest := "sha256:placeholder".toList }
        match lock.addPlugin spec.name newLock with
        | .error e => .error e
        | .ok lock' => resolveLoop now rest lock' true

/-- `LockfileService.ResolvePlugins`: `lockIn` is the repository's `Load`
result (`none` when no lockfile exists); the returned Boolean records
whether `Save` was called (the lockfile was dirty). -/
def resolvePlugins (now : Nat) (decls : List GoStr) (lockIn : Option Lockfile) :
    Except GoStr (Lockfile × Bool) :=
  match resolveLoop now decls
      (match lockIn with | some l => l | none => newLockfile now) false with
  | .error e => .error e
  | .ok (lock', updated) =>
    if updated then .ok ({ lock' with generated := now }, true)
    else .ok (lock', false)

/-- Constraint-consistency of a declaration list: no two declarations
resolve to the same plugin name with different requested constraints. -/
def consistentDecls (decls : List GoStr) : Bool :=
  decls.all fun d1 =>
    decls.all fun d2 =>
      match parsePluginDeclaration d1, parsePluginDeclaration d2 with
      | .ok s1, .ok s2 => s1.name ≠ s2.name ∨ constraintOf s1 = constraintOf s2
      | _, _ => true

/-- Projection of an `Except` onto its success value. -/
def exceptOk? : Except ε α → Option α
  | .ok a => some a
  | .error _ => none

deriving instance DecidableEq for Except

/-! # Theorems -/

/-! ## Splitting lemmas -/

theorem splitChAux_of_not_mem (sep : Char) (xs acc : GoStr) (h : sep ∉ xs) :
    splitChAux sep xs acc = [acc.reverse ++ xs] := by
  induction xs generalizing acc with
  | nil => simp [splitChAux]
  | cons c rest ih =>
    have h1 : ¬ c = sep := fun g => h (g ▸ List.mem_cons_self c rest)
    have h2 : sep ∉ rest := fun g => h (List.mem_cons_of_mem _ g)
    simp [splitChAux, h1, ih _ h2]

theorem splitChAux_append (sep : Char) (xs ys acc : GoStr) (h : sep ∉ xs) :
    splitChAux sep (xs ++ sep :: ys) acc = (acc.reverse ++ xs) :: splitChAux sep ys [] := by
  induction xs generalizing acc with
  | nil => simp [splitChAux]
  | cons c rest ih =>
    have h1 : ¬ c = sep := fun g => h (g ▸ List.mem_cons_self c rest)
    have h2 : sep ∉ rest := fun g => h (List.mem_cons_of_mem _ g)
    simp [splitChAux, h1, ih _ h2]

theorem goSplit_append (sep : Char) (xs ys : GoStr) (h : sep ∉ xs) :
    goSplit (xs ++ sep :: ys) sep = xs :: goSplit ys sep := by
  simp [goSplit, splitChAux_append sep xs ys [] h]

theorem goSplit_of_not_mem (sep : Char) (xs : GoStr) (h : sep ∉ xs) :
    goSplit xs sep = [xs] := by
  simp [goSplit, splitChAux_of_not_mem sep xs [] h]

/-! ## C8: plugin reference round-trip -/

/-- C8: for every plugin reference `r` — embedded bare-name or full
`registry/org/repo/name:version` (well-formed components: no separator
characters inside a component) — parsing the canonical string form
round-trips: `ParsePluginReference (r.String())` succeeds and equals `r`
under componentwise equality. -/
theorem parsePluginReference_roundtrip (r : PluginReference)
    (h : (r.registry = [] ∧ r.org = [] ∧ r.repo = [] ∧ r.version = [] ∧
            '/' ∉ r.name ∧ ':' ∉ r.name)
       ∨ (r.registry ≠ [] ∧ '/' ∉ r.registry ∧ '/' ∉ r.org ∧ '/' ∉ r.repo ∧
            '/' ∉ r.name ∧ '/' ∉ r.version ∧ ':' ∉ r.name ∧ ':' ∉ r.version)) :
    ∃ r', parsePluginReference (refString r) = .ok r' ∧ refEquals r' r = true := by
  refine ⟨r, ?_, by simp [refEquals]⟩
  rcases h with ⟨hreg, horg, hrepo, hver, hn1, hn2⟩ |
    ⟨hreg, hr1, hr2, hr3, hr4, hr5, hn1, hn2⟩
  · have hemb : refString r = r.name := by
      simp [refString, PluginReference.isEmbedded, hreg]
    rw [hemb]
    have hc1 : r.name.contains '/' = false := by
      simpa using hn1
    have hc2 : r.name.contains ':' = false := by
      simpa using hn2
    simp only [parsePluginReference, hc1, hc2, Bool.false_eq_true, not_false_iff,
      and_self, if_pos]
    cases r
    simp_all
  · have hful : refString r =
        r.registry ++ '/' :: (r.org ++ '/' :: (r.repo ++ '/' ::
          (r.name ++ ':' :: r.version))) := by
      simp [refString, PluginReference.isEmbedded, hreg]
    have hsplit : goSplit (refString r) '/' =
        [r.registry, r.org, r.repo, r.name ++ ':' :: r.version] := by
      rw [hful, goSplit_append _ _ _ hr1, goSplit_append _ _ _ hr2,
        goSplit_append _ _ _ hr3, goSplit_of_not_mem]
      simp only [List.mem_append, List.mem_cons, not_or]
      refine ⟨hr4, ?_, hr5⟩
      intro hcl
      exact absurd hcl (by decide)
    have hnv : goSplit (r.name ++ ':' :: r.version) ':' = [r.name, r.version] := by
      rw [goSplit_append _ _ _ hn1, goSplit_of_not_mem _ _ hn2]
    have hmem : '/' ∈ refString r := by
      rw [hful]
      simp
    have hcon : (refString r).contains '/' = true := by
      simpa using hmem
    have hnotcond :
        ¬ (¬ ((refString r).contains '/' = true) ∧ ¬ ((refString r).contains ':' = true)) :=
      fun hc => hc.1 hcon
    rw [parsePluginReference, if_neg hnotcond]
    simp [hsplit, hnv]

/-- C8 witness: the round-trip theorem applied to a concrete full
reference. -/
theorem parsePluginReference_roundtrip_witness :
    ∃ r', parsePluginReference
        (refString ⟨"ghcr.io".toList, "org".toList, "repo".toList,
          "file".toList, "1.0.2".toList⟩) = .ok r' ∧
      refEquals r' ⟨"ghcr.io".toList, "org".toList, "repo".toList,
        "file".toList, "1.0.2".toList⟩ = true :=
  parsePluginReference_roundtrip _ (Or.inr (by decide))

/-! ## C1: the plugin path traversal guard -/

/-- C1 counterexample: with the unclean root `"/tmp/"` and the embedded
reference `x`, the reference string is not absolute and
`Clean(Join(root, ref))` is neither equal to `root` nor prefixed by
`root` followed by the separator — so by the claim `pluginPath` would
have to fail — yet it succeeds, returning `"/tmp/x"`, which also fails
the claim's "lies under root" condition.  (The code compares against
`Clean(root)`, not `root`.) -/
theorem pluginPath_unclean_root_cx :
    goIsAbs (refString ⟨[], [], [], "x".toList, []⟩) = false ∧
    goClean (goJoin2 "/tmp/".toList (refString ⟨[], [], [], "x".toList, []⟩)) =
      "/tmp/x".toList ∧
    "/tmp/x".toList ≠ "/tmp/".toList ∧
    List.isPrefixOf ("/tmp/".toList ++ ['/']) "/tmp/x".toList = false ∧
    pluginPath "/tmp/".toList (refString ⟨[], [], [], "x".toList, []⟩) =
      .ok "/tmp/x".toList := by
  decide

/-- C1 (amended: the comparisons are against `Clean(root)` rather than
`root`): for every root and reference string, `pluginPath` fails exactly
when the reference string is absolute or
`cleanPath := Clean(Join(root, ref))` is neither equal to `Clean(root)`
nor prefixed by `Clean(root)` + separator; consequently every path it
returns is `cleanPath` and lies under `Clean(root)`.  `pluginPath` is a
pure lexical computation, so the failure precedes any filesystem
operation. -/
theorem pluginPath_under_clean_root (root ref : GoStr) :
    ((∃ e, pluginPath root ref = .error e) ↔
      (goIsAbs ref = true ∨
        (List.isPrefixOf (goClean root ++ ['/']) (goClean (goJoin2 root ref)) = false ∧
          goClean (goJoin2 root ref) ≠ goClean root)))
    ∧ (∀ p, pluginPath root ref = .ok p →
        p = goClean (goJoin2 root ref) ∧
          (p = goClean root ∨
            List.isPrefixOf (goClean root ++ ['/']) p = true)) := by
  unfold pluginPath
  by_cases habs : goIsAbs ref
  · simp [habs]
  · by_cases hcond :
      List.isPrefixOf (goClean root ++ ['/']) (goClean (goJoin2 root ref)) = false ∧
        goClean (goJoin2 root ref) ≠ goClean root
    · simp [habs, hcond]
    · constructor
      · simp [habs, hcond]
      · intro p hp
        simp only [habs, Bool.false_eq_true, if_false, if_neg hcond, Except.ok.injEq] at hp
        subst hp
        refine ⟨rfl, ?_⟩
        rw [Classical.not_and_iff_or_not_not] at hcond
        rcases hcond with hc | hc
        · exact Or.inr (by simpa using hc)
        · exact Or.inl (by simpa using hc)

/-- C1 witness: the amended theorem applied to a concrete root and
reference. -/
theorem pluginPath_under_clean_root_witness :
    pluginPath "/r".toList "file".toList = .ok "/r/file".toList ∧
    ("/r/file".toList = goClean "/r".toList ∨
      List.isPrefixOf (goClean "/r".toList ++ ['/']) "/r/file".toList = true) := by
  have h := (pluginPath_under_clean_root "/r".toList "file".toList).2
    "/r/file".toList (by decide)
  exact ⟨by decide, h.2⟩

/-! ## C5: digest verification -/

/-- C5 counterexample: the claim says `VerifyDigest` returns no error
when the expected digest is empty, but on a plugin whose digest is
`sha256:abc` and an empty expected digest it returns an
`IntegrityMismatch` error (the empty-digest bypass lives in the caller
`PluginService.LoadPlugin`, not in `VerifyDigest`). -/
theorem verifyDigest_empty_expected_cx :
    verifyDigest
      { reference := ⟨[], [], [], "file".toList, []⟩,
        digest := ⟨"sha256".toList, "abc".toList⟩,
        metadata := ⟨"file".toList, [], [], []⟩ }
      ⟨[], []⟩ =
    some { expected := ⟨[], []⟩, actual := ⟨"sha256".toList, "abc".toList⟩ } := by
  decide

/-- C5 (amended: no empty-digest special case): for every plugin and
expected digest, `IntegrityService.VerifyDigest` returns an
`IntegrityMismatch` error carrying both digests exactly when the
plugin's digest differs from the expected one — also when the expected
digest is empty. -/
theorem verifyDigest_mismatch_iff (p : Plugin) (expected : Digest) :
    (verifyDigest p expected = none ↔ digestEquals p.digest expected = true) ∧
    (∀ e, verifyDigest p expected = some e →
      e.expected = expected ∧ e.actual = p.digest) := by
  unfold verifyDigest verifyIntegrity
  by_cases hd : digestEquals p.digest expected = true
  · simp [hd]
  · constructor
    · simp [hd]
    · intro e he
      simp only [if_neg hd, Option.some.injEq] at he
      subst he
      exact ⟨rfl, rfl⟩

/-- C5 witness: the amended theorem evaluated on a concrete mismatching
pair. -/
theorem verifyDigest_mismatch_iff_witness :
    verifyDigest
        { reference := ⟨[], [], [], "file".toList, []⟩,
          digest := ⟨"sha256".toList, "abc".toList⟩,
          metadata := ⟨"file".toList, [], [], []⟩ }
        ⟨"sha256".toList, "def".toList⟩ ≠ none ∧
    ∀ e, verifyDigest
        { reference := ⟨[], [], [], "file".toList, []⟩,
          digest := ⟨"sha256".toList, "abc".toList⟩,
          metadata := ⟨"file".toList, [], [], []⟩ }
        ⟨"sha256".toList, "def".toList⟩ = some e →
      e.expected = ⟨"sha256".toList, "def".toList⟩ ∧
        e.actual = ⟨"sha256".toList, "abc".toList⟩ := by
  have h := verifyDigest_mismatch_iff
    { reference := ⟨[], [], [], "file".toList, []⟩,
      digest := ⟨"sha256".toList, "abc".toList⟩,
      metadata := ⟨"file".toList, [], [], []⟩ }
    ⟨"sha256".toList, "def".toList⟩
  refine ⟨?_, h.2⟩
  intro hn
  have := h.1.mp hn
  exact absurd this (by decide)

/-! ## C4: capability middleware gating -/

/-- C4: for every host-function call through `CapabilityMiddleware`, if
the context carries no plugin name, or the payload does not unmarshal as
the request type expected for the function name, the inner handler is
invoked with no capability check performed; a check (and a possible
validation-error payload) occurs only when the plugin name is present
and the payload parses. -/
theorem capabilityMiddleware_gating (pluginName : Option GoStr) (funcName : GoStr)
    (parses : Bool) (checkResult : Option GoStr) :
    (capabilityMiddleware none funcName parses checkResult = .callNext false)
    ∧ (parses = false →
        capabilityMiddleware pluginName funcName false checkResult = .callNext false)
    ∧ (∀ msg, (capabilityMiddleware pluginName funcName parses checkResult = .callNext true ∨
        capabilityMiddleware pluginName funcName parses checkResult = .validationErr msg) →
        pluginName ≠ none ∧ parses = true) := by
  refine ⟨rfl, ?_, ?_⟩
  · intro _
    cases pluginName with
    | none => rfl
    | some n =>
      simp only [capabilityMiddleware]
      split
      · rfl
      · rfl
  · intro msg hres
    cases pluginName with
    | none =>
      rcases hres with hres | hres <;> exact absurd hres (by simp [capabilityMiddleware])
    | some n =>
      refine ⟨by simp, ?_⟩
      by_contra hp
      have hpf : parses = false := by
        cases parses
        · rfl
        · exact absurd rfl hp
      subst hpf
      rcases hres with hres | hres <;>
        · simp only [capabilityMiddleware] at hres
          split at hres <;> simp_all

/-- C4 witness: the gating theorem evaluated at concrete calls. -/
theorem capabilityMiddleware_gating_witness :
    (capabilityMiddleware none "dns_lookup".toList true (some "denied".toList) =
      .callNext false) ∧
    (capabilityMiddleware (some "p".toList) "dns_lookup".toList false
      (some "denied".toList) = .callNext false) ∧
    ((some "p".toList : Option GoStr) ≠ none ∧ true = true) := by
  have h := capabilityMiddleware_gating (some "p".toList) "dns_lookup".toList true
    (some "denied".toList)
  refine ⟨(capabilityMiddleware_gating none "dns_lookup".toList true
    (some "denied".toList)).1, ?_, ?_⟩
  · exact (capabilityMiddleware_gating (some "p".toList) "dns_lookup".toList false
      (some "denied".toList)).2.1 rfl
  · exact h.2.2 "denied".toList (Or.inr (by decide))

/-! ## C2: security levels and broad requests -/

/-- C2: under the Strict level every broad request is denied outright
with an error naming the rule and without invoking the prompter (also
shown for the network prompt loop, which stops at the broad rule with no
prompter event); under Permissive every request — broad or not — is
auto-granted without invoking the prompter; under Standard requests are
put to the prompter.  A request is broad exactly when its pattern is the
documented wildcard: `hosts=["*"], ports=["*"]` for network, `/**` or
`**` for filesystem paths, `*` for environment variables, `**` or `*`
for exec commands. -/
theorem evaluateWithSecurityLevel_levels (prompter : Prompter) (req : Request) :
    (req.isBroad = true →
      evaluateWithSecurityLevel .strict prompter req =
        (.error ("broad capability denied by strict security policy: ".toList ++
          req.description), false))
    ∧ evaluateWithSecurityLevel .permissive prompter req = (.ok (true, false), false)
    ∧ evaluateWithSecurityLevel .standard prompter req = (prompter req, true)
    ∧ (∀ (rule : NetworkRule) rest g s, (networkRuleRequest rule).isBroad = true →
        promptNetworkLoop .strict prompter (rule :: rest) g s =
          (.error ("broad capability denied by strict security policy: ".toList ++
            (networkRuleRequest rule).description), []))
    ∧ (∀ rule : NetworkRule, (networkRuleRequest rule).isBroad =
        decide (rule.hosts = ["*".toList] ∧ rule.ports = ["*".toList]))
    ∧ (∀ p, (fsReadRequest p).isBroad = decide (p = "/**".toList ∨ p = "**".toList))
    ∧ (∀ p, (fsWriteRequest p).isBroad = decide (p = "/**".toList ∨ p = "**".toList))
    ∧ (∀ v, (envRequest v).isBroad = decide (v = "*".toList))
    ∧ (∀ c, (execRequest c).isBroad = decide (c = "**".toList ∨ c = "*".toList)) := by
  refine ⟨?_, ?_, ?_, ?_, fun _ => rfl, fun _ => rfl, fun _ => rfl, fun _ => rfl,
    fun _ => rfl⟩
  · intro hb
    simp [evaluateWithSecurityLevel, hb]
  · by_cases hb : req.isBroad = true <;> simp [evaluateWithSecurityLevel, hb]
  · by_cases hb : req.isBroad = true <;> simp [evaluateWithSecurityLevel, hb]
  · intro rule rest g s hb
    simp [promptNetworkLoop, evaluateWithSecurityLevel, hb]

/-- C2 witness: the level theorem applied to the broad network rule
`hosts=["*"], ports=["*"]` under Strict. -/
theorem evaluateWithSecurityLevel_levels_witness :
    evaluateWithSecurityLevel .strict (fun _ => .ok (true, false))
      (networkRuleRequest ⟨["*".toList], ["*".toList]⟩) =
      (.error ("broad capability denied by strict security policy: ".toList ++
        (networkRuleRequest ⟨["*".toList], ["*".toList]⟩).description), false) :=
  (evaluateWithSecurityLevel_levels (fun _ => .ok (true, false))
    (networkRuleRequest ⟨["*".toList], ["*".toList]⟩)).1 (by decide)

/-! ## C9: empty required set and trust-all -/

/-- C9: `Gatekeeper.GrantCapabilities` returns the empty grant set with
no store access and no prompter consultation when the required set is
nil or empty; with `trustAll` it returns a clone of the required set,
again with no store access and no prompter consultation.  (The grant-set
emptiness test and clone are modelled from the spec; the Policy-aware
difference and deduplication are arbitrary parameters.) -/
theorem grantCapabilities_empty_and_trustAll (level : SecurityLevel)
    (storeLoadRes : Except Unit GrantSet) (interactive : Bool) (prompter : Prompter)
    (diff : GrantSet → GrantSet → GrantSet) (dedup : GrantSet → GrantSet)
    (required : Option GrantSet) (trustAll : Bool) :
    ((required = none ∨ ∃ g, required = some g ∧ grantSetIsEmpty g = true) →
      grantCapabilities level storeLoadRes interactive prompter diff dedup
        required trustAll = (.ok emptyGrantSet, []))
    ∧ (∀ g, required = some g → grantSetIsEmpty g = false → trustAll = true →
        grantCapabilities level storeLoadRes interactive prompter diff dedup
          required trustAll = (.ok (grantSetClone g), [])) := by
  constructor
  · rintro (hn | ⟨g, hg, hemp⟩)
    · subst hn
      rfl
    · subst hg
      simp [grantCapabilities, hemp]
  · intro g hg hne htrust
    subst hg
    subst htrust
    simp [grantCapabilities, hne]

/-- C9 witness: the frame theorem applied to a nil required set and to a
concrete non-empty required set with `trustAll`. -/
theorem grantCapabilities_empty_and_trustAll_witness :
    grantCapabilities .standard (.ok emptyGrantSet) false (fun _ => .ok (false, false))
      (fun a _ => a) (fun a => a) none false = (.ok emptyGrantSet, []) ∧
    grantCapabilities .strict (.ok emptyGrantSet) false (fun _ => .ok (false, false))
      (fun a _ => a) (fun a => a)
      (some { network := some { rules := [⟨["*".toList], ["*".toList]⟩] },
              fs := none, env := none, exec := none }) true =
      (.ok (grantSetClone
        { network := some { rules := [⟨["*".toList], ["*".toList]⟩] },
          fs := none, env := none, exec := none }), []) := by
  constructor
  · exact (grantCapabilities_empty_and_trustAll .standard (.ok emptyGrantSet) false
      (fun _ => .ok (false, false)) (fun a _ => a) (fun a => a) none false).1
      (Or.inl rfl)
  · exact (grantCapabilities_empty_and_trustAll .strict (.ok emptyGrantSet) false
      (fun _ => .ok (false, false)) (fun a _ => a) (fun a => a)
      (some { network := some { rules := [⟨["*".toList], ["*".toList]⟩] },
              fs := none, env := none, exec := none }) true).2
      _ rfl (by decide) rfl

/-! ## C10: risk classification -/

theorem addFactor_pos (rep : RiskReport) (level : RiskLevel) (desc : GoStr)
    (h : 0 < level) :
    addFactor rep level desc =
      { riskFactors := rep.riskFactors ++ [{ description := desc, level := level }],
        level := Nat.max rep.level level } := by
  unfold addFactor
  rw [if_pos (show level > RiskNone from h)]
  have hmax : (if level > rep.level then level else rep.level) = Nat.max rep.level level := by
    by_cases hlt : level > rep.level
    · rw [if_pos hlt]
      exact (Nat.max_eq_right (Nat.le_of_lt hlt)).symm
    · rw [if_neg hlt]
      exact (Nat.max_eq_left (Nat.le_of_not_lt hlt)).symm
  rw [hmax]

theorem addFactor_low (rep : RiskReport) (desc : GoStr) :
    addFactor rep RiskLow desc =
      { riskFactors := rep.riskFactors ++ [{ description := desc, level := RiskLow }],
        level := Nat.max rep.level RiskLow } :=
  addFactor_pos rep RiskLow desc (by decide)

theorem addFactor_medium (rep : RiskReport) (desc : GoStr) :
    addFactor rep RiskMedium desc =
      { riskFactors := rep.riskFactors ++ [{ description := desc, level := RiskMedium }],
        level := Nat.max rep.level RiskMedium } :=
  addFactor_pos rep RiskMedium desc (by decide)

theorem addFactor_high (rep : RiskReport) (desc : GoStr) :
    addFactor rep RiskHigh desc =
      { riskFactors := rep.riskFactors ++ [{ description := desc, level := RiskHigh }],
        level := Nat.max rep.level RiskHigh } :=
  addFactor_pos rep RiskHigh desc (by decide)

theorem addFactor_critical (rep : RiskReport) (desc : GoStr) :
    addFactor rep RiskCritical desc =
      { riskFactors := rep.riskFactors ++ [{ description := desc, level := RiskCritical }],
        level := Nat.max rep.level RiskCritical } :=
  addFactor_pos rep RiskCritical desc (by decide)

theorem foldl_addFactor_net (rules : List NetworkRule) (rep : RiskReport) :
    rules.foldl (fun rep rule =>
        if isWildcardHost rule then
          addFactor rep RiskCritical "Unrestricted network access".toList
        else addFactor rep RiskMedium "Outbound network access".toList) rep =
      { riskFactors := rep.riskFactors ++ rules.map (fun rule =>
          if isWildcardHost rule then
            ({ description := "Unrestricted network access".toList,
               level := RiskCritical } : RiskFactor)
          else { description := "Outbound network access".toList, level := RiskMedium }),
        level := (rules.map (fun rule =>
          if isWildcardHost rule then RiskCritical else RiskMedium)).foldl
            Nat.max rep.level } := by
  induction rules generalizing rep with
  | nil => simp
  | cons r rs ih =>
    simp only [List.foldl_cons, List.map_cons]
    by_cases hw : isWildcardHost r = true
    · rw [if_pos hw, if_pos hw, if_pos hw, addFactor_critical, ih]
      simp
    · rw [if_neg hw, if_neg hw, if_neg hw, addFactor_medium, ih]
      simp

theorem foldl_addFactor_fs (rules : List FileSystemRule) (rep : RiskReport) :
    rules.foldl (fun rep rule =>
        let rep :=
          if rule.write.length > 0 then
            addFactor rep RiskHigh "Filesystem write access".toList
          else rep
        if rule.read.length > 0 then
          addFactor rep RiskMedium "Filesystem read access".toList
        else rep) rep =
      { riskFactors := rep.riskFactors ++ rules.foldr (fun r acc =>
          (if r.write.length > 0 then
            [({ description := "Filesystem write access".toList,
                level := RiskHigh } : RiskFactor)] else []) ++
          (if r.read.length > 0 then
            [({ description := "Filesystem read access".toList,
                level := RiskMedium } : RiskFactor)] else []) ++ acc) [],
        level := (rules.foldr (fun r acc =>
          (if r.write.length > 0 then [RiskHigh] else []) ++
          (if r.read.length > 0 then [RiskMedium] else []) ++ acc) []).foldl
            Nat.max rep.level } := by
  induction rules generalizing rep with
  | nil => simp
  | cons r rs ih =>
    simp only [List.foldl_cons, List.foldr_cons]
    by_cases hwr : r.write.length > 0 <;> by_cases hrd : r.read.length > 0
    · rw [if_pos hwr, if_pos hwr, if_pos hwr, if_pos hrd, if_pos hrd, if_pos hrd,
        addFactor_high, addFactor_medium, ih]
      simp [List.foldl_append]
    · rw [if_pos hwr, if_pos hwr, if_pos hwr, if_neg hrd, if_neg hrd, if_neg hrd,
        addFactor_high, ih]
      simp
    · rw [if_neg hwr, if_neg hwr, if_neg hwr, if_pos hrd, if_pos hrd, if_pos hrd,
        addFactor_medium, ih]
      simp
    · rw [if_neg hwr, if_neg hwr, if_neg hwr, if_neg hrd, if_neg hrd, if_neg hrd, ih]
      simp

theorem map_level_fsFactors (dw dr : GoStr) (rules : List FileSystemRule) :
    (rules.foldr (fun r acc =>
        (if r.write.length > 0 then
          [({ description := dw, level := RiskHigh } : RiskFactor)] else []) ++
        ((if r.read.length > 0 then
          [({ description := dr, level := RiskMedium } : RiskFactor)] else []) ++ acc)) []).map
        RiskFactor.level =
      rules.foldr (fun r acc =>
        (if r.write.length > 0 then [RiskHigh] else []) ++
        ((if r.read.length > 0 then [RiskMedium] else []) ++ acc)) [] := by
  induction rules with
  | nil => simp
  | cons r rs ih =>
    simp only [List.foldr_cons]
    by_cases hwr : r.write.length > 0 <;> by_cases hrd : r.read.length > 0
    · rw [if_pos hwr, if_pos hwr, if_pos hrd, if_pos hrd,
        List.map_append, List.map_append, ih]
      simp
    · rw [if_pos hwr, if_pos hwr, if_neg hrd, if_neg hrd]
      simp only [List.nil_append, List.map_append, ih]
      simp
    · rw [if_neg hwr, if_neg hwr, if_pos hrd, if_pos hrd]
      simp only [List.nil_append, List.map_append, ih]
      simp
    · rw [if_neg hwr, if_neg hwr, if_neg hrd, if_neg hrd]
      simp only [List.nil_append, ih]

/-- C10: `AnalyzeRisk` classifies each rule as documented — network rule
with a wildcard host (`*` or `0.0.0.0`) Critical, other network rules
Medium, filesystem write High, filesystem read Medium, exec Critical,
env Low — and the report's overall level is the maximum over all factor
levels (`RiskNone` for a nil set or a set with no rules). -/
theorem analyzeRisk_classification (grants : Option GrantSet) :
    (analyzeRisk grants).riskFactors.map RiskFactor.level = specFactorLevels grants
    ∧ (analyzeRisk grants).level = (specFactorLevels grants).foldl Nat.max RiskNone := by
  cases grants with
  | none => exact ⟨rfl, rfl⟩
  | some g =>
    obtain ⟨net, fsc, envc, exc⟩ := g
    unfold analyzeRisk specFactorLevels
    cases net <;> cases fsc <;> cases exc <;> cases envc <;>
      simp only [] <;>
      (try rw [foldl_addFactor_net]) <;>
      (try rw [foldl_addFactor_fs]) <;>
      (try split_ifs) <;>
      simp_all [addFactor_low, addFactor_medium, addFactor_high, addFactor_critical,
        map_level_fsFactors, List.foldl_append, List.map_map, Function.comp,
        apply_ite RiskFactor.level, -gt_iff_lt]

/-! ## C3: the retry transport -/

theorem rtRun_count_le (base : Nat → Outcome) :
    ∀ (remaining attempt : Nat), (rtRun base attempt remaining).2 ≤ remaining := by
  intro remaining
  induction remaining with
  | zero => intro attempt; simp [rtRun]
  | succ r ih =>
    intro attempt
    simp only [rtRun]
    cases base attempt with
    | err ssrf =>
      dsimp only
      cases ssrf
      · simp only [Bool.false_eq_true, if_false]
        by_cases hr : r > 0
        · rw [if_pos hr]
          exact Nat.succ_le_succ (ih (attempt + 1))
        · rw [if_neg hr]
          omega
      · simp only [if_true]
        omega
    | resp s =>
      dsimp only
      by_cases h1 : isRetryableStatus s = false
      · rw [if_pos h1]
        omega
      · rw [if_neg h1]
        by_cases h2 : 400 ≤ s ∧ s < 500 ∧ s ≠ 429
        · rw [if_pos h2]
          omega
        · rw [if_neg h2]
          by_cases hr : r > 0
          · rw [if_pos hr]
            exact Nat.succ_le_succ (ih (attempt + 1))
          · rw [if_neg hr]
            omega

theorem rtRun_retried_retryable (base : Nat → Outcome) :
    ∀ (remaining attempt j : Nat), j + 1 < (rtRun base attempt remaining).2 →
      retryableOutcome (base (attempt + j)) = true := by
  intro remaining
  induction remaining with
  | zero => intro attempt j h; simp [rtRun] at h
  | succ r ih =>
    intro attempt j h
    simp only [rtRun] at h
    cases hb : base attempt with
    | err ssrf =>
      rw [hb] at h
      dsimp only at h
      cases ssrf
      · simp only [Bool.false_eq_true, if_false] at h
        by_cases hr : r > 0
        · rw [if_pos hr] at h
          cases j with
          | zero => simp [retryableOutcome, hb]
          | succ k =>
            have hk : k + 1 < (rtRun base (attempt + 1) r).2 := by
              simpa using Nat.lt_of_succ_lt_succ h
            have hres := ih (attempt + 1) k hk
            rwa [show attempt + 1 + k = attempt + (k + 1) by omega] at hres
        · rw [if_neg hr] at h
          simp at h
      · simp only [if_true] at h
        omega
    | resp s =>
      rw [hb] at h
      dsimp only at h
      by_cases h1 : isRetryableStatus s = false
      · rw [if_pos h1] at h
        omega
      · rw [if_neg h1] at h
        by_cases h2 : 400 ≤ s ∧ s < 500 ∧ s ≠ 429
        · rw [if_pos h2] at h
          omega
        · rw [if_neg h2] at h
          by_cases hr : r > 0
          · rw [if_pos hr] at h
            cases j with
            | zero =>
              simp only [Nat.add_zero, hb, retryableOutcome]
              cases hx : isRetryableStatus s
              · exact absurd hx h1
              · rfl
            | succ k =>
              have hk : k + 1 < (rtRun base (attempt + 1) r).2 := by
                simpa using Nat.lt_of_succ_lt_succ h
              have hres := ih (attempt + 1) k hk
              rwa [show attempt + 1 + k = attempt + (k + 1) by omega] at hres
          · rw [if_neg hr] at h
            simp at h

theorem retryable_not_4xx (s : Int) (h : isRetryableStatus s = true) :
    ¬ (400 ≤ s ∧ s < 500 ∧ s ≠ 429) := by
  have hd : s = 429 ∨ s = 502 ∨ s = 503 ∨ s = 504 := by
    by_contra hc
    simp [isRetryableStatus, hc] at h
  rintro ⟨ha, hb, hc⟩
  rcases hd with h' | h' | h' | h' <;> omega

theorem rtRun_first (base : Nat → Outcome) :
    ∀ (remaining attempt i : Nat) (s : Int), i < remaining →
      base (attempt + i) = .resp s → isRetryableStatus s = false →
      (∀ j, j < i → retryableOutcome (base (attempt + j)) = true) →
      rtRun base attempt remaining = (.resp s, i + 1) := by
  intro remaining
  induction remaining with
  | zero => intro attempt i s hi; exact absurd hi (Nat.not_lt_zero i)
  | succ r ih =>
    intro attempt i s hi hb hnr hall
    cases i with
    | zero =>
      rw [Nat.add_zero] at hb
      simp only [rtRun, hb, if_pos hnr]
    | succ k =>
      have h0 := hall 0 (Nat.succ_pos k)
      rw [Nat.add_zero] at h0
      have hr : r > 0 := by omega
      simp only [rtRun]
      cases hbo : base attempt with
      | err ssrf =>
        dsimp only
        have hsf : ssrf = false := by
          rw [hbo] at h0
          simpa [retryableOutcome] using h0
        subst hsf
        simp only [Bool.false_eq_true, if_false, if_pos hr]
        have hrec := ih (attempt + 1) k s (by omega)
          (by rw [show attempt + 1 + k = attempt + (k + 1) by omega]; exact hb) hnr
          (fun j hj => by
            have := hall (j + 1) (by omega)
            rwa [show attempt + (j + 1) = attempt + 1 + j by omega] at this)
        rw [hrec]
      | resp s' =>
        dsimp only
        have hrr : isRetryableStatus s' = true := by
          rw [hbo] at h0
          simpa [retryableOutcome] using h0
        have h1 : ¬ (isRetryableStatus s' = false) := by simp [hrr]
        rw [if_neg h1, if_neg (retryable_not_4xx s' hrr), if_pos hr]
        have hrec := ih (attempt + 1) k s (by omega)
          (by rw [show attempt + 1 + k = attempt + (k + 1) by omega]; exact hb) hnr
          (fun j hj => by
            have := hall (j + 1) (by omega)
            rwa [show attempt + (j + 1) = attempt + 1 + j by omega] at this)
        rw [hrec]

/-- C3: for every underlying-outcome sequence and every configured
`MaxRetries` value `m > 0`, `RetryTransport.RoundTrip` makes at most
`m + 1` underlying calls; every attempt that is followed by a retry
yielded a non-SSRF transport error or a response with status 429, 502,
503 or 504 (in particular no other 4xx is ever retried); and it returns
the first response whose status is not one of the retryable codes. -/
theorem retryTransport_roundTrip_spec (base : Nat → Outcome) (m : Nat) (hm : 0 < m) :
    (roundTrip base m).2 ≤ m + 1
    ∧ (∀ j, j + 1 < (roundTrip base m).2 → retryableOutcome (base j) = true)
    ∧ (∀ i s, i ≤ m → base i = .resp s → isRetryableStatus s = false →
        (∀ j, j < i → retryableOutcome (base j) = true) →
        roundTrip base m = (.resp s, i + 1)) := by
  have hmm : (if m = 0 then 3 else m) = m := by
    rw [if_neg (by omega)]
  unfold roundTrip
  rw [hmm]
  refine ⟨rtRun_count_le base (m + 1) 0, ?_, ?_⟩
  · intro j hj
    have := rtRun_retried_retryable base (m + 1) 0 j hj
    simpa using this
  · intro i s hi hb hnr hall
    have := rtRun_first base (m + 1) 0 i s (by omega) (by simpa using hb) hnr
      (fun j hj => by simpa using hall j hj)
    simpa using this

/-- C3 witness: the spec's retry scenario — underlying outcomes 503 then
200 with `MaxRetries = 3` — returns 200 after exactly 2 attempts. -/
theorem retryTransport_roundTrip_spec_witness :
    roundTrip (fun i => if i = 0 then Outcome.resp 503 else Outcome.resp 200) 3 =
      (RTOut.resp 200, 2) :=
  (retryTransport_roundTrip_spec
    (fun i => if i = 0 then Outcome.resp 503 else Outcome.resp 200) 3
    (by decide)).2.2 1 200 (by decide) (by decide) (by decide) (by decide)

/-! ## C6: limited reader and body truncation -/

theorem readAll_overflow :
    ∀ (fuel : Nat) (s : LRState) (acc : List Nat),
      s.stream.length < fuel → 0 ≤ s.n → s.n < s.stream.length →
      ∃ data r, readAll fuel s acc = some (data, some (.sizeLimit s.limit r)) := by
  intro fuel
  induction fuel with
  | zero =>
    intro s acc h
    exact absurd h (Nat.not_lt_zero _)
  | succ f ih =>
    intro s acc hlt hnn hover
    by_cases hn0 : s.n ≤ 0
    · refine ⟨acc ++ [], s.read, ?_⟩
      simp only [readAll]
      unfold lrRead
      rw [if_pos hn0]
    · have hpos : 0 < s.n := by omega
      have hne : s.stream.isEmpty = false := by
        cases hs : s.stream with
        | nil =>
          rw [hs] at hover
          simp at hover
          omega
        | cons a l => simp [hs]
      have hlen : 0 < s.stream.length := by
        cases hs : s.stream with
        | nil => rw [hs] at hne; simp at hne
        | cons a l => simp [hs]
      simp only [readAll]
      unfold lrRead
      rw [if_neg hn0]
      rw [hne]
      simp only [Bool.false_eq_true, if_false]
      set k := min (min 512 s.n.toNat) s.stream.length with hkdef
      have hk1 : 1 ≤ k := by
        have h1 : 1 ≤ s.n.toNat := by omega
        have h2 : 1 ≤ min 512 s.n.toNat := le_min (by omega) h1
        exact le_min h2 hlen
      have hkn : (k : Int) ≤ s.n := by
        have h1 : k ≤ min 512 s.n.toNat := min_le_left _ _
        have h2 : min 512 s.n.toNat ≤ s.n.toNat := min_le_right _ _
        have h3 : k ≤ s.n.toNat := le_trans h1 h2
        omega
      have hklen : k ≤ s.stream.length := min_le_right _ _
      by_cases hk0 : s.n - (k : Int) = 0
      · rw [if_pos hk0]
        have hklt : k < s.stream.length := by omega
        have hkE : (s.stream.drop k).isEmpty = false := by
          cases hd : s.stream.drop k with
          | nil =>
            have := List.drop_eq_nil_iff.mp hd
            omega
          | cons a l => simp
        rw [hkE]
        simp only [Bool.false_eq_true, if_false]
        exact ⟨acc ++ s.stream.take k, s.read + k + 1, rfl⟩
      · rw [if_neg hk0]
        have hrec := ih
          { n := s.n - k, limit := s.limit, read := s.read + k, stream := s.stream.drop k }
          (acc ++ s.stream.take k)
          (by simp [List.length_drop]; omega)
          (by simp; omega)
          (by simp [List.length_drop]; omega)
        obtain ⟨data, r, hr⟩ := hrec
        exact ⟨data, r, hr⟩

/-- C6: a `LimitedReader` with limit 0 fails every read immediately with
a `SizeLimitExceeded` error; for every underlying stream longer than the
limit, reading the body surfaces a `SizeLimitExceeded` error, which the
HTTP response reader converts into a response with
`BodyTruncated = true` and no error record. -/
theorem limitedReader_sizeLimit_truncation :
    (∀ (stream : List Nat) (psize : Nat),
      (lrRead (newLimitedReader stream 0) psize).1.2 = some (.sizeLimit 0 0))
    ∧ (∀ (stream : List Nat) (limit : Int) (status : Int),
        0 ≤ limit → limit < stream.length →
        ∃ body, readHTTPResponse status stream limit =
          some { statusCode := status, body := body, bodyTruncated := true,
                 error := none }) := by
  constructor
  · intro stream psize
    simp [lrRead, newLimitedReader]
  · intro stream limit status h0 hlt
    unfold readHTTPResponse
    obtain ⟨data, r, hr⟩ := readAll_overflow (stream.length + 1)
      (newLimitedReader stream limit) []
      (by simp [newLimitedReader]) (by simpa [newLimitedReader])
      (by simpa [newLimitedReader])
    rw [hr]
    exact ⟨data, rfl⟩

/-- C6 witness: the truncation theorem evaluated on a limit-0 reader and
on a 4-byte stream with a 2-byte budget. -/
theorem limitedReader_sizeLimit_truncation_witness :
    (lrRead (newLimitedReader [1, 2, 3] 0) 512).1.2 = some (.sizeLimit 0 0) ∧
    ∃ body, readHTTPResponse 200 [1, 2, 3, 4] 2 =
      some { statusCode := 200, body := body, bodyTruncated := true, error := none } :=
  ⟨limitedReader_sizeLimit_truncation.1 [1, 2, 3] 512,
   limitedReader_sizeLimit_truncation.2 [1, 2, 3, 4] 2 200 (by decide) (by decide)⟩

/-! ## C7: lockfile resolution -/

theorem resolveLoop_preserve (now : Nat) :
    ∀ (decls : List GoStr) (lock : Lockfile) (u : Bool) (name : GoStr) (e : PluginLock),
      lock.plugins name = some e →
      (∀ d spec, d ∈ decls → parsePluginDeclaration d = .ok spec → spec.name = name →
        constraintOf spec = e.requested) →
      ∀ res, resolveLoop now decls lock u = .ok res → res.1.plugins name = some e := by
  intro decls
  induction decls with
  | nil =>
    intro lock u name e he hcons res hres
    simp only [resolveLoop, Except.ok.injEq] at hres
    rw [← hres]
    exact he
  | cons d rest ih =>
    intro lock u name e he hcons res hres
    simp only [resolveLoop] at hres
    cases hp : parsePluginDeclaration d with
    | error err =>
      rw [hp] at hres
      exact absurd hres (by simp)
    | ok spec =>
      rw [hp] at hres
      dsimp only at hres
      cases hg : lock.getPlugin spec.name with
      | some locked =>
        simp only [Lockfile.getPlugin] at hg
        by_cases heq : locked.requested = constraintOf spec
        · rw [if_pos (by
            show (match lock.getPlugin spec.name with
              | some locked => decide (locked.requested = constraintOf spec)
              | none => false) = true
            simp only [Lockfile.getPlugin, hg]
            exact decide_eq_true heq)] at hres
          exact ih lock u name e he
            (fun d' spec' hd' hp' hn' =>
              hcons d' spec' (List.mem_cons_of_mem _ hd') hp' hn') res hres
        · by_cases hnm : spec.name = name
          · exfalso
            rw [hnm] at hg
            have hle : locked = e := by
              have h2 := hg.symm.trans he
              injection h2
            apply heq
            rw [hle]
            exact (hcons d spec (List.mem_cons_self _ _) hp hnm).symm
          · rw [if_neg (by
              show ¬ ((match lock.getPlugin spec.name with
                | some locked => decide (locked.requested = constraintOf spec)
                | none => false) = true)
              simp only [Lockfile.getPlugin, hg]
              simp [heq])] at hres
            simp only [Lockfile.addPlugin] at hres
            rw [if_neg (by decide)] at hres
            refine ih _ true name e ?_
              (fun d' spec' hd' hp' hn' =>
                hcons d' spec' (List.mem_cons_of_mem _ hd') hp' hn') res hres
            show (if name = spec.name then _ else lock.plugins name) = some e
            rw [if_neg (fun hh => hnm hh.symm)]
            exact he
      | none =>
        simp only [Lockfile.getPlugin] at hg
        by_cases hnm : spec.name = name
        · exfalso
          rw [hnm] at hg
          rw [he] at hg
          exact Option.noConfusion hg
        · rw [if_neg (by
            show ¬ ((match lock.getPlugin spec.name with
              | some locked => decide (locked.requested = constraintOf spec)
              | none => false) = true)
            simp only [Lockfile.getPlugin, hg]
            simp)] at hres
          simp only [Lockfile.addPlugin] at hres
          rw [if_neg (by decide)] at hres
          refine ih _ true name e ?_
            (fun d' spec' hd' hp' hn' =>
              hcons d' spec' (List.mem_cons_of_mem _ hd') hp' hn') res hres
          show (if name = spec.name then _ else lock.plugins name) = some e
          rw [if_neg (fun hh => hnm hh.symm)]
          exact he

theorem resolveLoop_parses (now : Nat) :
    ∀ (decls : List GoStr) (lock : Lockfile) (u : Bool) (res : Lockfile × Bool),
      resolveLoop now decls lock u = .ok res →
      ∀ d, d ∈ decls → ∃ spec, parsePluginDeclaration d = .ok spec := by
  intro decls
  induction decls with
  | nil =>
    intro lock u res _ d hd
    exact absurd hd (List.not_mem_nil d)
  | cons d0 rest ih =>
    intro lock u res hres d hd
    simp only [resolveLoop] at hres
    cases hp : parsePluginDeclaration d0 with
    | error err =>
      rw [hp] at hres
      exact absurd hres (by simp)
    | ok spec0 =>
      rw [hp] at hres
      dsimp only at hres
      rcases List.mem_cons.mp hd with hd0 | hdr
      · exact ⟨spec0, hd0 ▸ hp⟩
      · by_cases hkeep : (match lock.getPlugin spec0.name with
          | some locked => decide (locked.requested = constraintOf spec0)
          | none => false) = true
        · rw [if_pos hkeep] at hres
          exact ih lock u res hres d hdr
        · rw [if_neg hkeep] at hres
          simp only [Lockfile.addPlugin] at hres
          rw [if_neg (by decide)] at hres
          exact ih _ true res hres d hdr

theorem resolveLoop_establishes (now : Nat) :
    ∀ (decls : List GoStr) (lock : Lockfile) (u : Bool) (res : Lockfile × Bool),
      resolveLoop now decls lock u = .ok res →
      (∀ d1 d2 s1 s2, d1 ∈ decls → d2 ∈ decls → parsePluginDeclaration d1 = .ok s1 →
        parsePluginDeclaration d2 = .ok s2 → s1.name = s2.name →
        constraintOf s1 = constraintOf s2) →
      ∀ d spec, d ∈ decls → parsePluginDeclaration d = .ok spec →
        ∃ e, res.1.plugins spec.name = some e ∧ e.requested = constraintOf spec := by
  intro decls
  induction decls with
  | nil =>
    intro lock u res _ _ d spec hd
    exact absurd hd (List.not_mem_nil d)
  | cons d0 rest ih =>
    intro lock u res hres hcons d spec hd hp
    simp only [resolveLoop] at hres
    cases hp0 : parsePluginDeclaration d0 with
    | error err =>
      rw [hp0] at hres
      exact absurd hres (by simp)
    | ok spec0 =>
      rw [hp0] at hres
      dsimp only at hres
      -- Identify the lockfile state after processing d0 together with the
      -- entry it holds for spec0.name.
      have hstep : ∃ (lock1 : Lockfile) (u1 : Bool) (e0 : PluginLock),
          resolveLoop now rest lock1 u1 = .ok res ∧
          lock1.plugins spec0.name = some e0 ∧ e0.requested = constraintOf spec0 := by
        cases hg : lock.getPlugin spec0.name with
        | some locked =>
          simp only [Lockfile.getPlugin] at hg
          by_cases heq : locked.requested = constraintOf spec0
          · rw [if_pos (by
              show (match lock.getPlugin spec0.name with
                | some locked => decide (locked.requested = constraintOf spec0)
                | none => false) = true
              simp only [Lockfile.getPlugin, hg]
              exact decide_eq_true heq)] at hres
            exact ⟨lock, u, locked, hres, hg, heq⟩
          · rw [if_neg (by
              show ¬ ((match lock.getPlugin spec0.name with
                | some locked => decide (locked.requested = constraintOf spec0)
                | none => false) = true)
              simp only [Lockfile.getPlugin, hg]
              simp [heq])] at hres
            simp only [Lockfile.addPlugin] at hres
            rw [if_neg (by decide)] at hres
            refine ⟨_, true,
              { fetched := now, modified := 0, requested := constraintOf spec0,
                resolved := constraintOf spec0, source := spec0.source,
                digest := "sha256:placeholder".toList }, hres, ?_, rfl⟩
            show (if spec0.name = spec0.name then some _ else _) = some _
            rw [if_pos rfl]
        | none =>
          simp only [Lockfile.getPlugin] at hg
          rw [if_neg (by
            show ¬ ((match lock.getPlugin spec0.name with
              | some locked => decide (locked.requested = constraintOf spec0)
              | none => false) = true)
            simp only [Lockfile.getPlugin, hg]
            simp)] at hres
          simp only [Lockfile.addPlugin] at hres
          rw [if_neg (by decide)] at hres
          refine ⟨_, true,
            { fetched := now, modified := 0, requested := constraintOf spec0,
              resolved := constraintOf spec0, source := spec0.source,
              digest := "sha256:placeholder".toList }, hres, ?_, rfl⟩
          show (if spec0.name = spec0.name then some _ else _) = some _
          rw [if_pos rfl]
      obtain ⟨lock1, u1, e0, hloop1, he0, hreq0⟩ := hstep
      rcases List.mem_cons.mp hd with hd0 | hdr
      · -- d is the head declaration: its entry is preserved through the rest.
        subst hd0
        have hspec : spec = spec0 := by
          have h2 := hp.symm.trans hp0
          exact Except.ok.inj h2
        subst hspec
        refine ⟨e0, ?_, hreq0⟩
        exact resolveLoop_preserve now rest lock1 u1 spec.name e0 he0
          (fun d' spec' hd' hp' hn' => by
            rw [hreq0]
            exact hcons d' d spec' spec (List.mem_cons_of_mem _ hd')
              (List.mem_cons_self _ _) hp' hp hn') res hloop1
      · exact ih lock1 u1 res hloop1
          (fun d1 d2 s1 s2 h1 h2 hp1 hp2 hnm =>
            hcons d1 d2 s1 s2 (List.mem_cons_of_mem _ h1) (List.mem_cons_of_mem _ h2)
              hp1 hp2 hnm) d spec hdr hp

theorem resolveLoop_noop (now : Nat) :
    ∀ (decls : List GoStr) (lock : Lockfile),
      (∀ d, d ∈ decls → ∃ spec, parsePluginDeclaration d = .ok spec ∧
        ∃ e, lock.plugins spec.name = some e ∧ e.requested = constraintOf spec) →
      resolveLoop now decls lock false = .ok (lock, false) := by
  intro decls
  induction decls with
  | nil => intro lock _; rfl
  | cons d rest ih =>
    intro lock hall
    obtain ⟨spec, hp, e, he, hreq⟩ := hall d (List.mem_cons_self _ _)
    simp only [resolveLoop, hp]
    rw [if_pos (by
      show (match lock.getPlugin spec.name with
        | some locked => decide (locked.requested = constraintOf spec)
        | none => false) = true
      simp only [Lockfile.getPlugin, he]
      exact decide_eq_true hreq)]
    exact ih lock (fun d' hd' => hall d' (List.mem_cons_of_mem _ hd'))

/-- C7 counterexample: with declarations `["file@1.0", "file@2.0"]` —
the same name requested under two constraints — the first run locks
`file` at `2.0`; re-running on the same inputs re-resolves the first
declaration, so `Save` is called again (the run's saved-flag is `true`),
contrary to the claim that a second run performs no Save call. -/
theorem resolvePlugins_rerun_saves_cx :
    ((resolvePlugins 0 ["file@1.0".toList, "file@2.0".toList] none).bind (fun p =>
        resolvePlugins 1 ["file@1.0".toList, "file@2.0".toList] (some p.1))).map
      Prod.snd = .ok true := by
  rfl

/-- C7 (amended: provided no two declarations in the list resolve to the
same plugin name with different requested constraints):
`LockfileService.ResolvePlugins` keeps an existing lockfile entry
unchanged when its name is present with a matching requested constraint,
and running it a second time on the same inputs performs no Save call
and yields the same lockfile — in particular, resolving
`["file@1.2.0"]` from no lockfile creates one entry with
`requested = 1.2.0` and a re-run does not call Save. -/
theorem resolvePlugins_idempotent (now1 now2 : Nat) (decls : List GoStr)
    (lockIn : Option Lockfile) (lock1 : Lockfile) (saved1 : Bool)
    (hcons : consistentDecls decls = true)
    (h1 : resolvePlugins now1 decls lockIn = .ok (lock1, saved1)) :
    (∀ (L : Lockfile) (name : GoStr) (e : PluginLock), lockIn = some L →
      L.plugins name = some e →
      (∀ d spec, d ∈ decls → parsePluginDeclaration d = .ok spec → spec.name = name →
        constraintOf spec = e.requested) →
      lock1.plugins name = some e)
    ∧ resolvePlugins now2 decls (some lock1) = .ok (lock1, false) := by
  have hconsP : ∀ d1 d2 s1 s2, d1 ∈ decls → d2 ∈ decls →
      parsePluginDeclaration d1 = .ok s1 → parsePluginDeclaration d2 = .ok s2 →
      s1.name = s2.name → constraintOf s1 = constraintOf s2 := by
    intro d1 d2 s1 s2 h1m h2m hp1 hp2 hnm
    have ha := List.all_eq_true.mp hcons d1 h1m
    have hb := List.all_eq_true.mp ha d2 h2m
    rw [hp1, hp2] at hb
    dsimp only at hb
    have hb' := of_decide_eq_true hb
    rcases hb' with hne | heq
    · exact absurd hnm hne
    · exact heq
  unfold resolvePlugins at h1
  obtain ⟨out, hloop⟩ : ∃ out, resolveLoop now1 decls
      (match lockIn with | some l => l | none => newLockfile now1) false = out :=
    ⟨_, rfl⟩
  rw [hloop] at h1
  cases out with
  | error e =>
    exact Except.noConfusion h1
  | ok p =>
    obtain ⟨lockA, updated⟩ := p
    dsimp only at h1
    have hpl : lock1.plugins = lockA.plugins := by
      by_cases hu : updated = true
      · rw [if_pos hu] at h1
        have h2 := congrArg Prod.fst (Except.ok.inj h1)
        dsimp only at h2
        rw [← h2]
      · rw [if_neg hu] at h1
        have h2 := congrArg Prod.fst (Except.ok.inj h1)
        dsimp only at h2
        rw [← h2]
    constructor
    · intro L name e hLin he hcond
      rw [hLin] at hloop
      rw [hpl]
      exact resolveLoop_preserve now1 decls L false name e he hcond
        (lockA, updated) hloop
    · have hnoop := resolveLoop_noop now2 decls lock1 (by
        intro d hd
        obtain ⟨spec, hp⟩ := resolveLoop_parses now1 decls _ false
          (lockA, updated) hloop d hd
        obtain ⟨e, he, hr⟩ := resolveLoop_establishes now1 decls _ false
          (lockA, updated) hloop hconsP d spec hd hp
        exact ⟨spec, hp, e, by rw [hpl]; exact he, hr⟩)
      unfold resolvePlugins
      rw [show (match some lock1 with | some l => l | none => newLockfile now2) =
        lock1 from rfl]
      rw [hnoop]
      rfl

/-- C7 witness: the idempotence theorem applied to the spec's scenario —
resolving `["file@1.2.0"]` from no lockfile creates one entry with
`requested = 1.2.0` and saves; re-running does not save and returns the
same lockfile. -/
theorem resolvePlugins_idempotent_witness :
    resolvePlugins 5 ["file@1.2.0".toList] none =
      .ok ({ generated := 5, version := 1,
             plugins := fun k => if k = "file".toList then
               some { fetched := 5, modified := 0, requested := "1.2.0".toList,
                      resolved := "1.2.0".toList, source := "file".toList,
                      digest := "sha256:placeholder".toList }
               else none }, true) ∧
    resolvePlugins 7 ["file@1.2.0".toList]
      (some { generated := 5, version := 1,
              plugins := fun k => if k = "file".toList then
                some { fetched := 5, modified := 0, requested := "1.2.0".toList,
                       resolved := "1.2.0".toList, source := "file".toList,
                       digest := "sha256:placeholder".toList }
                else none }) =
      .ok ({ generated := 5, version := 1,
             plugins := fun k => if k = "file".toList then
               some { fetched := 5, modified := 0, requested := "1.2.0".toList,
                      resolved := "1.2.0".toList, source := "file".toList,
                      digest := "sha256:placeholder".toList }
               else none }, false) := by
  refine ⟨rfl, ?_⟩
  exact (resolvePlugins_idempotent 5 7 ["file@1.2.0".toList] none _ true rfl rfl).2
